import Mathlib

/-!
Verification of the poster-tools Photoshop scripts against their
natural-language specification.

The scripts operate on the host application's layer tree.  We embed that
tree shallowly: a node is either an art layer (leaf; carries a kind tag
and, for text layers, its text contents) or a layer set (container with an
ordered list of children).  Each script's layer-mutating logic is
translated function-by-function from the JSX source:

  * `processLayers`    — toggle-vis-by-prefix.jsx, `processLayers`
  * `hideTextLayers`   — hide-all-text-layers.jsx, `hideTextLayers`
  * `getTextFromGroup` — toggle-vis-by-prefix.jsx (rename-groups IIFE)
  * `renameGroups`     — the rename-groups IIFE top-level loop
  * `exportMain`       — export-all-groups.jsx, `main` (visibility and
                         filename bookkeeping; PNG encoding is host glue)
  * `runToggle` etc.   — each script's entry guard and alert behaviour
-/

namespace PosterTools

/-- Kind tag of an art layer, mirroring the host's `LayerKind` as far as the
scripts discriminate it (`LayerKind.TEXT` versus everything else). -/
inductive LayerKind where
  | text
  | other
deriving DecidableEq, Repr

/-- A node of the document's layer tree.  `art` is a leaf layer (`ArtLayer`
in the host; `contents` is its `textItem.contents`, meaningful for text
layers).  `set` is a container (`LayerSet`), holding its children in the
host's front-to-back order. -/
inductive Layer where
  | art (name : String) (kind : LayerKind) (visible : Bool) (contents : String)
  | set (name : String) (visible : Bool) (children : List Layer)
deriving Repr

/-- The node's `name` property. -/
def nameOf : Layer → String
  | .art n _ _ _ => n
  | .set n _ _ => n

/-- The node's `visible` property. -/
def visibleOf : Layer → Bool
  | .art _ _ v _ => v
  | .set _ v _ => v

/-- `layer.typename == "LayerSet"` in the scripts. -/
def isSet : Layer → Bool
  | .art _ _ _ _ => false
  | .set _ _ _ => true

/-- `layer.kind && layer.kind == LayerKind.TEXT` in the scripts: true for
text art layers only (a `LayerSet` has no `kind`). -/
def isTextArt : Layer → Bool
  | .art _ k _ _ => k == LayerKind.text
  | .set _ _ _ => false

/-- JS `name.indexOf(p) === 0`: `p` occurs at position 0 of `n`
(case-sensitive). -/
def nameStartsWith (n p : String) : Bool :=
  List.isPrefixOf p.data n.data

/-- All nodes of a forest in visit order: each node followed by its
descendants, front-to-back. -/
def allLayersList : List Layer → List Layer
  | [] => []
  | .art n k v c :: ls => .art n k v c :: allLayersList ls
  | .set n v ch :: ls => .set n v ch :: (allLayersList ch ++ allLayersList ls)

/-- `processLayers` from toggle-vis-by-prefix.jsx: walk the layer list; a
layer whose name starts with the given text is set to `shouldShow` and
counted; a layer set's children are processed recursively.  Returns the
updated forest and the running match count. -/
def processLayers (p : String) (shouldShow : Bool) : List Layer → List Layer × Nat
  | [] => ([], 0)
  | .art n k v c :: ls =>
    let matched := nameStartsWith n p
    let rest := processLayers p shouldShow ls
    (.art n k (if matched then shouldShow else v) c :: rest.1,
      (if matched then 1 else 0) + rest.2)
  | .set n v ch :: ls =>
    let matched := nameStartsWith n p
    let inner := processLayers p shouldShow ch
    let rest := processLayers p shouldShow ls
    (.set n (if matched then shouldShow else v) inner.1 :: rest.1,
      (if matched then 1 else 0) + inner.2 + rest.2)

/-- `hideTextLayers` from hide-all-text-layers.jsx: hide each text layer,
recurse into each layer set (regardless of its visibility). -/
def hideTextLayers : List Layer → List Layer
  | [] => []
  | .art n k v c :: ls =>
    .art n k (if k == LayerKind.text then false else v) c :: hideTextLayers ls
  | .set n v ch :: ls =>
    .set n v (hideTextLayers ch) :: hideTextLayers ls

/-- JS truthiness of `getTextFromGroup`'s result as the scripts test it:
`null` and the empty string are falsy. -/
def isTruthy : Option String → Bool
  | none => false
  | some s => !(s == "")

/-- The host's `group.artLayers` loop inside `getTextFromGroup`: scan the
direct children in order, skipping layer sets (they are not in `artLayers`),
and return the first text layer's `textItem.contents` — even when that
string is empty. -/
def firstTextContents : List Layer → Option String
  | [] => none
  | .art _ k _ c :: ls =>
    if k == LayerKind.text then some c else firstTextContents ls
  | .set _ _ _ :: ls => firstTextContents ls

mutual

/-- `getTextFromGroup` from the rename-groups IIFE: first search the
group's direct art layers for a text layer; if none, search the nested
layer sets in order, keeping the first truthy recursive result; else
`null`. -/
def getTextFromGroup : Layer → Option String
  | .art _ _ _ _ => none
  | .set _ _ ch =>
    match firstTextContents ch with
    | some s => some s
    | none => searchNestedSets ch

/-- The `group.layerSets` loop inside `getTextFromGroup`: scan the direct
children in order, skipping art layers (they are not in `layerSets`);
for each nested set take its recursive result and return it when truthy
(`if (result) return result`), otherwise continue; after the loop, `null`. -/
def searchNestedSets : List Layer → Option String
  | [] => none
  | .art _ _ _ _ :: ls => searchNestedSets ls
  | .set n v ch :: ls =>
    let r := getTextFromGroup (.set n v ch)
    if isTruthy r then r else searchNestedSets ls

end

/-- The rename-groups IIFE top-level loop: for each top-level layer set
(`doc.layerSets` — art layers at the top level are skipped), compute
`getTextFromGroup`; when the result is truthy, set the group's name to it. -/
def renameGroups (layers : List Layer) : List Layer :=
  layers.map fun l =>
    match l with
    | .art n k v c => .art n k v c
    | .set n v ch =>
      let t := getTextFromGroup (.set n v ch)
      match t with
      | some s => if s == "" then .set n v ch else .set s v ch
      | none => .set n v ch

/-- Whether a forest contains a text layer at any depth. -/
def hasTextInList : List Layer → Bool
  | [] => false
  | .art _ k _ _ :: ls => k == LayerKind.text || hasTextInList ls
  | .set _ _ ch :: ls => hasTextInList ch || hasTextInList ls

/-- Whether a node has a `kind == Text` descendant (the node's own subtree,
itself included for a text leaf). -/
def hasTextDescendant : Layer → Bool
  | .art _ k _ _ => k == LayerKind.text
  | .set _ _ ch => hasTextInList ch

/-- Set a node's own `visible` flag (children untouched), as
`doc.layers[i].visible = b` does in export-all-groups.jsx. -/
def setTopVisible (b : Bool) : Layer → Layer
  | .art n k _ c => .art n k b c
  | .set n _ ch => .set n b ch

/-- The reserved-character class of export-all-groups.jsx's
`name.replace(/[\/\\:*?"<>|]/g, "_")`. -/
def reservedChar (c : Char) : Bool :=
  c == '/' || c == '\\' || c == ':' || c == '*' || c == '?' ||
  c == '"' || c == '<' || c == '>' || c == '|'

/-- The filename cleaning of export-all-groups.jsx line 42: every
occurrence of a reserved character becomes an underscore. -/
def sanitizeFilename (name : String) : String :=
  String.mk (name.data.map fun c => if reservedChar c then '_' else c)

/-- The export loop of `main` in export-all-groups.jsx, run after every
top-level layer was hidden: each top-level layer set is shown, exported to
`<sanitized name>.png`, and hidden again (net visibility: false); other
top-level layers are untouched.  Returns the forest after the loop, the
export count, and the exported filenames in order. -/
def exportLoop : List Layer → List Layer × Nat × List String
  | [] => ([], 0, [])
  | .art n k v c :: ls =>
    let rest := exportLoop ls
    (.art n k v c :: rest.1, rest.2.1, rest.2.2)
  | .set n _ ch :: ls =>
    let rest := exportLoop ls
    (.set n false ch :: rest.1, rest.2.1 + 1,
      (sanitizeFilename n ++ ".png") :: rest.2.2)

/-- Reapply the saved `originalStates` to the top-level layers, as the
final loop of `main` does. -/
def restoreVisibility : List Layer → List Bool → List Layer
  | ls, [] => ls
  | [], _ :: _ => []
  | l :: ls, b :: bs => setTopVisible b l :: restoreVisibility ls bs

/-- `main` from export-all-groups.jsx after a folder was selected: save
every top-level layer's visibility, hide them all, run the export loop,
then restore the saved states. -/
def exportMain (layers : List Layer) : List Layer × Nat × List String :=
  let originalStates := layers.map visibleOf
  let hidden := layers.map (setTopVisible false)
  let afterLoop := exportLoop hidden
  (restoreVisibility afterLoop.1 originalStates, afterLoop.2.1, afterLoop.2.2)

/-- A document as the scripts see it: its top-level layer list. -/
structure PsDocument where
  layers : List Layer
deriving Repr

/-- Entry point of toggle-vis-by-prefix.jsx (`toggleLayersByPrefix`): the
document guard, the two prompts (a `none` input is a cancelled prompt,
and the empty string is falsy like `null`), action validation, then
`processLayers` on the active document.  Returns the document list and the
alerts raised. -/
def runToggle (docs : List PsDocument) (pIn aIn : Option String) :
    List PsDocument × List String :=
  match docs with
  | [] => (docs, ["Please open a document first."])
  | d :: rest =>
    match pIn with
    | none => (docs, ["No prefix entered. Operation cancelled."])
    | some p =>
      if p == "" then (docs, ["No prefix entered. Operation cancelled."])
      else
        match aIn with
        | none => (docs, ["No action specified. Operation cancelled."])
        | some a0 =>
          if a0 == "" then (docs, ["No action specified. Operation cancelled."])
          else
            let a := a0.toLower
            if a != "show" && a != "hide" then
              (docs, ["Invalid action. Please enter \x27show\x27 or \x27hide\x27."])
            else
              let shouldShow := a == "show"
              let res := processLayers p shouldShow d.layers
              (⟨res.1⟩ :: rest,
                ["Operation complete.\n" ++ toString res.2 ++
                  " layer(s) with prefix \x27" ++ p ++ "\x27 were " ++
                  (if shouldShow then "shown" else "hidden") ++ "."])

/-- Entry of hide-all-text-layers.jsx: `if (app.documents.length > 0)`
run `hideTextLayers` on the active document — note: no alert in either
branch. -/
def runHideAllText (docs : List PsDocument) : List PsDocument × List String :=
  match docs with
  | [] => (docs, [])
  | d :: rest => (⟨hideTextLayers d.layers⟩ :: rest, [])

/-- Entry of the rename-groups IIFE: document guard with alert, then the
rename loop, then the completion alert. -/
def runRenameGroups (docs : List PsDocument) : List PsDocument × List String :=
  match docs with
  | [] => (docs, ["No document open!"])
  | d :: rest => (⟨renameGroups d.layers⟩ :: rest, ["Done!"])

/-- Entry of export-all-groups.jsx: document guard with alert; then the
folder dialog (`none` is a cancelled dialog, a silent return); then
`exportMain` and the completion alert. -/
def runExportGroups (docs : List PsDocument) (folderSel : Option String) :
    List PsDocument × List String :=
  match docs with
  | [] => (docs, ["Please open a document first."])
  | d :: rest =>
    match folderSel with
    | none => (docs, [])
    | some folder =>
      let res := exportMain d.layers
      (⟨res.1⟩ :: rest,
        ["Exported " ++ toString res.2.1 ++ " groups as PNG files to:\n" ++ folder])

/-! Spec-side definitions, written from the specification's words for the
rename-groups search, to compare against the source embedding. -/

/-- Spec wording: the first `kind == Text` node among a container's direct
children, in order. -/
def specDirectText : List Layer → Option String
  | [] => none
  | .art _ k _ c :: ls =>
    if k == LayerKind.text then some c else specDirectText ls
  | .set _ _ _ :: ls => specDirectText ls

mutual

/-- Spec wording of C4: the string content of the first Text-kind
descendant found by a pre-order search of the container's own subtree,
direct children searched before nested containers. -/
def specFirstText : Layer → Option String
  | .art _ k _ c => if k == LayerKind.text then some c else none
  | .set _ _ ch =>
    match specDirectText ch with
    | some s => some s
    | none => specNestedText ch

/-- Spec wording of C4, nested phase: search each nested container's
subtree in order, taking the first found text content. -/
def specNestedText : List Layer → Option String
  | [] => none
  | .art _ _ _ _ :: ls => specNestedText ls
  | .set n v ch :: ls =>
    match specFirstText (.set n v ch) with
    | some s => some s
    | none => specNestedText ls

end

mutual

/-- Amended candidate for C4: the first direct Text child's content when a
direct Text child exists (even when that content is empty); otherwise the
first non-empty result of applying the same search to the nested
containers in order, empty results being skipped. -/
def amendedCandidate : Layer → Option String
  | .art _ _ _ _ => none
  | .set _ _ ch =>
    match specDirectText ch with
    | some s => some s
    | none => amendedNested ch

/-- Nested phase of the amended C4 candidate: an empty-string result from
a nested container is skipped and the search continues. -/
def amendedNested : List Layer → Option String
  | [] => none
  | .art _ _ _ _ :: ls => amendedNested ls
  | .set n v ch :: ls =>
    match amendedCandidate (.set n v ch) with
    | some s => if s == "" then amendedNested ls else some s
    | none => amendedNested ls

end

/-- The per-container rename step as amended for C4: rename to the
candidate exactly when the candidate is non-empty; art layers and
candidate-less or empty-candidate containers are unchanged. -/
def amendedRename (l : Layer) : Layer :=
  match l with
  | .art n k v c => .art n k v c
  | .set n v ch =>
    match amendedCandidate (.set n v ch) with
    | some s => if s == "" then .set n v ch else .set s v ch
    | none => .set n v ch

/-! Induction principle following the scripts' traversal shape. -/

/-- Induction over layer forests: the empty forest, an art layer in front,
or a layer set in front (with the hypothesis available for its children
and for the rest). -/
theorem layerList_ind (P : List Layer → Prop)
    (h0 : P [])
    (hart : ∀ n k v c ls, P ls → P (.art n k v c :: ls))
    (hset : ∀ n v ch ls, P ch → P ls → P (.set n v ch :: ls)) :
    ∀ ls, P ls
  | [] => h0
  | .art n k v c :: ls => hart n k v c ls (layerList_ind P h0 hart hset ls)
  | .set n v ch :: ls =>
    hset n v ch ls (layerList_ind P h0 hart hset ch)
      (layerList_ind P h0 hart hset ls)

/-! Helper lemmas about the traversals. -/

@[simp] theorem nameOf_art (n : String) (k : LayerKind) (v : Bool) (c : String) :
    nameOf (.art n k v c) = n := rfl

@[simp] theorem nameOf_set (n : String) (v : Bool) (ch : List Layer) :
    nameOf (.set n v ch) = n := rfl

@[simp] theorem visibleOf_art (n : String) (k : LayerKind) (v : Bool) (c : String) :
    visibleOf (.art n k v c) = v := rfl

@[simp] theorem visibleOf_set (n : String) (v : Bool) (ch : List Layer) :
    visibleOf (.set n v ch) = v := rfl

@[simp] theorem isSet_art (n : String) (k : LayerKind) (v : Bool) (c : String) :
    isSet (.art n k v c) = false := rfl

@[simp] theorem isSet_set (n : String) (v : Bool) (ch : List Layer) :
    isSet (.set n v ch) = true := rfl

@[simp] theorem isTextArt_art (n : String) (k : LayerKind) (v : Bool) (c : String) :
    isTextArt (.art n k v c) = (k == LayerKind.text) := rfl

@[simp] theorem isTextArt_set (n : String) (v : Bool) (ch : List Layer) :
    isTextArt (.set n v ch) = false := rfl

/-- Characterisation of a toggle pass: node for node (in visit order), the
name is unchanged and the visibility becomes `s` exactly on a prefix
match. -/
theorem processLayers_pairs (p : String) (s : Bool) :
    ∀ ls, (allLayersList (processLayers p s ls).1).map (fun l => (nameOf l, visibleOf l))
      = (allLayersList ls).map
          (fun l => (nameOf l, if nameStartsWith (nameOf l) p then s else visibleOf l)) := by
  refine layerList_ind _ ?_ ?_ ?_
  · simp [processLayers, allLayersList]
  · intro n k v c ls ih
    simp [processLayers, allLayersList, ih]
  · intro n v ch ls ih1 ih2
    simp [processLayers, allLayersList, ih1, ih2]

/-- The running count of a toggle pass counts the prefix matches among all
nodes of the forest. -/
theorem processLayers_count (p : String) (s : Bool) :
    ∀ ls, (processLayers p s ls).2
      = ((allLayersList ls).filter (fun l => nameStartsWith (nameOf l) p)).length := by
  refine layerList_ind _ ?_ ?_ ?_
  · simp [processLayers, allLayersList]
  · intro n k v c ls ih
    by_cases h : nameStartsWith n p <;>
      simp [processLayers, allLayersList, h, ih] <;> omega
  · intro n v ch ls ih1 ih2
    by_cases h : nameStartsWith n p <;>
      simp [processLayers, allLayersList, h, ih1, ih2] <;> omega

/-! Claims. -/

/-- C1.  After toggle-by-prefix with action show, every node (at any
depth) whose name starts with the non-empty prefix `p` is visible, and
every other node keeps its prior visibility: node for node in visit
order, names are unchanged and the visibility of the result is `true`
exactly on the matching nodes and the old value elsewhere. -/
theorem toggle_show_matching_visible (ls : List Layer) (p : String) (hp : p ≠ "") :
    (allLayersList (processLayers p true ls).1).map (fun l => (nameOf l, visibleOf l))
      = (allLayersList ls).map
          (fun l => (nameOf l, if nameStartsWith (nameOf l) p then true else visibleOf l)) :=
  processLayers_pairs p true ls

/-- Witness for C1 at the spec's own example (prefix `BG_`). -/
theorem toggle_show_matching_visible_witness :
    (allLayersList (processLayers "BG_" true
        [.art "BG_Sky" LayerKind.other false "", .art "BG_Hill" LayerKind.other false "",
          .art "FG_Tree" LayerKind.other true ""]).1).map (fun l => (nameOf l, visibleOf l))
      = (allLayersList
          [.art "BG_Sky" LayerKind.other false "", .art "BG_Hill" LayerKind.other false "",
            .art "FG_Tree" LayerKind.other true ""]).map
          (fun l => (nameOf l, if nameStartsWith (nameOf l) "BG_" then true else visibleOf l)) :=
  toggle_show_matching_visible _ "BG_" (by decide)

/-- C2.  The match count returned by toggle-by-prefix (the number its
completion notice reports, see `runToggle`) is the number of nodes at any
depth — leaf layers and containers alike — whose name starts with `p`. -/
theorem toggle_count_is_match_count (p : String) (s : Bool) (ls : List Layer) :
    (processLayers p s ls).2
      = ((allLayersList ls).filter (fun l => nameStartsWith (nameOf l) p)).length :=
  processLayers_count p s ls

/-- C8.  Hide-all-text is idempotent: a second pass changes nothing (hence
in particular the visibility assignment is the same after one pass and
after two). -/
theorem hide_all_text_idempotent :
    ∀ ls, hideTextLayers (hideTextLayers ls) = hideTextLayers ls := by
  refine layerList_ind _ ?_ ?_ ?_
  · simp [hideTextLayers]
  · intro n k v c ls ih
    by_cases h : k == LayerKind.text <;> simp [hideTextLayers, h, ih]
  · intro n v ch ls ih1 ih2
    simp [hideTextLayers, ih1, ih2]

/-- After hiding all top-level layers, running the export loop and
restoring the saved visibilities, the forest is exactly the one we
started from. -/
theorem export_restore_roundtrip :
    ∀ ls, restoreVisibility (exportLoop (ls.map (setTopVisible false))).1
      (ls.map visibleOf) = ls := by
  intro ls
  induction ls with
  | nil => rfl
  | cons l ls ih =>
    cases l with
    | art n k v c => simp [exportLoop, restoreVisibility, setTopVisible, ih]
    | set n v ch => simp [exportLoop, restoreVisibility, setTopVisible, ih]

/-- The whole of `main`'s layer mutation is invisible after the restore
pass: the document's layer forest is unchanged. -/
theorem exportMain_preserves_layers (ls : List Layer) : (exportMain ls).1 = ls := by
  simpa [exportMain] using export_restore_roundtrip ls

/-- C3.  After export-groups-as-image completes, every top-level node —
container or leaf — has the `visible` flag it had before the call,
however many containers were exported. -/
theorem export_restores_visibility (ls : List Layer) :
    List.Forall₂ (fun pre post => visibleOf post = visibleOf pre)
      ls (exportMain ls).1 := by
  rw [exportMain_preserves_layers ls]
  exact List.forall₂_same.mpr fun x _ => rfl

/-- Every text layer at any depth is invisible after a hide-all-text
pass, even inside hidden containers. -/
theorem hideTextLayers_all_text_invisible :
    ∀ ls, (allLayersList (hideTextLayers ls)).all
      (fun l => !(isTextArt l) || !(visibleOf l)) = true := by
  refine layerList_ind _ ?_ ?_ ?_
  · simp [hideTextLayers, allLayersList]
  · intro n k v c ls ih
    by_cases h : k == LayerKind.text <;> simp [hideTextLayers, allLayersList, h, ih]
  · intro n v ch ls ih1 ih2
    simp [hideTextLayers, allLayersList, ih1, ih2]

/-- Every node whose name matches the prefix has visibility `s` after a
toggle pass, at any depth, even inside hidden containers. -/
theorem processLayers_all_matched_toggled (p : String) (s : Bool) :
    ∀ ls, (allLayersList (processLayers p s ls).1).all
      (fun l => !(nameStartsWith (nameOf l) p) || (visibleOf l == s)) = true := by
  refine layerList_ind _ ?_ ?_ ?_
  · simp [processLayers, allLayersList]
  · intro n k v c ls ih
    by_cases h : nameStartsWith n p <;> simp [processLayers, allLayersList, h, ih]
  · intro n v ch ls ih1 ih2
    by_cases h : nameStartsWith n p <;>
      simp [processLayers, allLayersList, h, ih1, ih2]

/-- C10.  Traversal never prunes on visibility: both walks recurse into a
container whose `visible` flag is arbitrary (the container's children are
processed exactly as they would be anywhere), a text layer inside a
hidden container still ends up invisible after hide-all-text, and a
prefix-matching node inside any container still gets toggled (and, by the
second conjunct, its subtree's matches are still counted). -/
theorem traversal_ignores_visibility (n p : String) (v s : Bool) (ch : List Layer) :
    hideTextLayers [.set n v ch] = [.set n v (hideTextLayers ch)] ∧
    processLayers p s [.set n v ch]
      = ([.set n (if nameStartsWith n p then s else v) (processLayers p s ch).1],
          (if nameStartsWith n p then 1 else 0) + (processLayers p s ch).2) ∧
    (allLayersList (hideTextLayers ch)).all
      (fun l => !(isTextArt l) || !(visibleOf l)) = true ∧
    (allLayersList (processLayers p s ch).1).all
      (fun l => !(nameStartsWith (nameOf l) p) || (visibleOf l == s)) = true := by
  refine ⟨by simp [hideTextLayers], by simp [processLayers],
    hideTextLayers_all_text_invisible ch, processLayers_all_matched_toggled p s ch⟩

/-- C5 counterexample.  Hide-all-text with no document open raises no
alert at all (its guard `if (app.documents.length > 0)` has no else
branch), refuting the claim that every operation reports a blocking
notice in that situation; it does abort with no mutation. -/
theorem no_document_hide_all_text_silent :
    (runHideAllText []).2 = [] ∧ (runHideAllText []).1 = [] :=
  ⟨rfl, rfl⟩

/-- C5 amended.  With no document open, toggle-by-prefix,
rename-groups-from-text and export-groups-as-image each abort
immediately with a single blocking notice and no mutation; hide-all-text
also aborts immediately with no mutation, but silently, issuing no
notice. -/
theorem no_document_aborts_without_mutation (pIn aIn folderSel : Option String) :
    runToggle [] pIn aIn = ([], ["Please open a document first."]) ∧
    runRenameGroups [] = ([], ["No document open!"]) ∧
    runExportGroups [] folderSel = ([], ["Please open a document first."]) ∧
    runHideAllText [] = ([], []) :=
  ⟨rfl, rfl, rfl, rfl⟩

/-- C7.  Filename sanitization: the cleaned name has the same length, the
character at each position is an underscore when the original character
is reserved (`/ \ : * ? " < > |`) and the original character otherwise,
and a name with no reserved character is returned unchanged. -/
theorem sanitize_filename_spec (s : String) :
    (sanitizeFilename s).data.length = s.data.length ∧
    (∀ i (h1 : i < (sanitizeFilename s).data.length) (h2 : i < s.data.length),
      (sanitizeFilename s).data.get ⟨i, h1⟩
        = (if reservedChar (s.data.get ⟨i, h2⟩) then '_' else s.data.get ⟨i, h2⟩)) ∧
    ((∀ c ∈ s.data, reservedChar c = false) → sanitizeFilename s = s) := by
  refine ⟨by simp [sanitizeFilename], ?_, ?_⟩
  · intro i h1 h2
    simp [sanitizeFilename]
  · intro hall
    have hpt : ∀ c ∈ s.data, (if reservedChar c then '_' else c) = id c :=
      fun c hc => by simp [hall c hc]
    have : s.data.map (fun c => if reservedChar c then '_' else c) = s.data := by
      rw [List.map_congr_left hpt, List.map_id]
    simp [sanitizeFilename, this]

/-- Witness for C7: one name with a reserved character, one without. -/
theorem sanitize_filename_spec_witness :
    (sanitizeFilename "ab/c").data.length = "ab/c".data.length ∧
    (sanitizeFilename "ab/c").data.get ⟨2, by simp [sanitizeFilename]⟩
      = (if reservedChar ("ab/c".data.get ⟨2, by decide⟩) then '_'
          else "ab/c".data.get ⟨2, by decide⟩) ∧
    sanitizeFilename "abc" = "abc" :=
  ⟨(sanitize_filename_spec "ab/c").1,
    (sanitize_filename_spec "ab/c").2.1 2 _ _,
    (sanitize_filename_spec "abc").2.2 (by decide)⟩

/-- In a forest with no text layer, both phases of the rename search come
up empty. -/
theorem no_text_search_none :
    ∀ ls, hasTextInList ls = false →
      firstTextContents ls = none ∧ searchNestedSets ls = none := by
  refine layerList_ind _ ?_ ?_ ?_
  · intro _; exact ⟨rfl, rfl⟩
  · intro n k v c ls ih h
    cases k with
    | text => simp [hasTextInList] at h
    | other =>
      simp [hasTextInList] at h
      simp [firstTextContents, searchNestedSets, ih h]
  · intro n v ch ls ihch ihls h
    simp [hasTextInList] at h
    obtain ⟨hch, hls⟩ := h
    obtain ⟨fch, sch⟩ := ihch hch
    obtain ⟨fls, sls⟩ := ihls hls
    refine ⟨by simp [firstTextContents, fls], ?_⟩
    simp [searchNestedSets, getTextFromGroup, fch, sch, isTruthy, sls]

/-- A group with no text descendant yields nothing from
`getTextFromGroup`. -/
theorem getTextFromGroup_none (n : String) (v : Bool) (ch : List Layer)
    (h : hasTextInList ch = false) : getTextFromGroup (.set n v ch) = none := by
  obtain ⟨f, s⟩ := no_text_search_none ch h
  simp [getTextFromGroup, f, s]

/-- Unfolding `renameGroups` past an art layer. -/
theorem renameGroups_cons_art (n : String) (k : LayerKind) (v : Bool) (c : String)
    (ls : List Layer) :
    renameGroups (.art n k v c :: ls) = .art n k v c :: renameGroups ls := rfl

/-- Unfolding `renameGroups` past a layer set. -/
theorem renameGroups_cons_set (n : String) (v : Bool) (ch ls : List Layer) :
    renameGroups (.set n v ch :: ls)
      = (match getTextFromGroup (.set n v ch) with
          | some s => if s == "" then Layer.set n v ch else Layer.set s v ch
          | none => Layer.set n v ch) :: renameGroups ls := rfl

/-- C6.  Rename-groups-from-text leaves every container that has no
Text-kind descendant with its name unchanged (node for node in visit
order over the whole tree — a silent per-container no-op). -/
theorem rename_keeps_textless_container_names (ls : List Layer) :
    List.Forall₂
      (fun pre post =>
        isSet pre = true → hasTextDescendant pre = false → nameOf post = nameOf pre)
      (allLayersList ls) (allLayersList (renameGroups ls)) := by
  induction ls with
  | nil => simp [renameGroups, allLayersList]
  | cons l ls ih =>
    cases l with
    | art n k v c =>
      rw [renameGroups_cons_art]
      simp only [allLayersList]
      exact List.Forall₂.cons (fun h => by simp at h) ih
    | set n v ch =>
      rw [renameGroups_cons_set]
      split
      case h_2 =>
        simp only [allLayersList]
        exact List.Forall₂.cons (fun _ _ => rfl)
          (List.rel_append (List.forall₂_same.mpr fun x _ _ _ => rfl) ih)
      case h_1 s ht =>
        split
        · simp only [allLayersList]
          exact List.Forall₂.cons (fun _ _ => rfl)
            (List.rel_append (List.forall₂_same.mpr fun x _ _ _ => rfl) ih)
        · simp only [allLayersList]
          refine List.Forall₂.cons ?_
            (List.rel_append (List.forall₂_same.mpr fun x _ _ _ => rfl) ih)
          intro _ hnt
          exact absurd ht
            (by simp [getTextFromGroup_none n v ch (by simpa [hasTextDescendant] using hnt)])

/-- Witness for C6 at the spec's own example: the container `Act 2` has
no Text descendant and keeps its name. -/
theorem rename_keeps_textless_container_names_witness :
    List.Forall₂
      (fun pre post =>
        isSet pre = true → hasTextDescendant pre = false → nameOf post = nameOf pre)
      (allLayersList [.set "Act 2" true []])
      (allLayersList (renameGroups [.set "Act 2" true []])) :=
  rename_keeps_textless_container_names [.set "Act 2" true []]

/-- C9.  Empty text contents are falsy in the rename search: a first
direct Text child with empty contents is returned at once (later and
deeper layers are not consulted) and blocks the rename, while an empty
result coming back from a nested container is skipped and the search
moves on to the next nested container. -/
theorem rename_empty_text_semantics (gn tn n1 n2 tn1 : String)
    (gv tv v1 v2 tv1 : Bool) (rest ch1 ch2 : List Layer) :
    getTextFromGroup (.set gn gv (.art tn LayerKind.text tv "" :: rest)) = some "" ∧
    renameGroups [.set gn gv (.art tn LayerKind.text tv "" :: rest)]
      = [.set gn gv (.art tn LayerKind.text tv "" :: rest)] ∧
    getTextFromGroup (.set gn gv
        [.set n1 v1 (.art tn1 LayerKind.text tv1 "" :: ch1), .set n2 v2 ch2])
      = getTextFromGroup (.set gn gv [.set n2 v2 ch2]) := by
  refine ⟨by simp [getTextFromGroup, firstTextContents], ?_, ?_⟩
  · simp [renameGroups, getTextFromGroup, firstTextContents]
  · simp [getTextFromGroup, firstTextContents, searchNestedSets, isTruthy]

/-- C4 counterexample.  In the group `G` the first Text-kind descendant in
the claimed search order (direct children before nested containers) is
the direct text layer with empty contents, so the claim says `G` is
renamed to the empty string; the code leaves the name `G` unchanged (the
empty result is falsy), even though a deeper text layer holds
`hello`. -/
theorem rename_first_text_claim_cex :
    specFirstText (.set "G" true [.art "t" LayerKind.text true "",
        .set "S" true [.art "u" LayerKind.text true "hello"]]) = some "" ∧
    renameGroups [.set "G" true [.art "t" LayerKind.text true "",
        .set "S" true [.art "u" LayerKind.text true "hello"]]]
      = [.set "G" true [.art "t" LayerKind.text true "",
          .set "S" true [.art "u" LayerKind.text true "hello"]]] ∧
    ("G" : String) ≠ "" :=
  ⟨rfl, rfl, by decide⟩

/-- The direct-children search of the source is the spec's direct-child
phase. -/
theorem firstTextContents_eq_specDirect :
    ∀ ls, firstTextContents ls = specDirectText ls := by
  refine layerList_ind _ ?_ ?_ ?_
  · rfl
  · intro n k v c ls ih
    simp [firstTextContents, specDirectText, ih]
  · intro n v ch ls _ ih
    simp [firstTextContents, specDirectText, ih]

/-- The nested-phase search of the source equals the amended candidate's
nested phase (skip empty results, keep the first non-empty one). -/
theorem searchNestedSets_eq_amendedNested :
    ∀ ls, searchNestedSets ls = amendedNested ls := by
  refine layerList_ind _ ?_ ?_ ?_
  · rfl
  · intro n k v c ls ih
    simp [searchNestedSets, amendedNested, ih]
  · intro n v ch ls ihch ihls
    have hsub : getTextFromGroup (.set n v ch) = amendedCandidate (.set n v ch) := by
      rw [getTextFromGroup, amendedCandidate, firstTextContents_eq_specDirect, ihch]
    rw [searchNestedSets, amendedNested, hsub]
    rcases hc : amendedCandidate (.set n v ch) with _ | s
    · simp [isTruthy, ihls]
    · by_cases hs : (s == "") = true
      · simp [isTruthy, hs, ihls]
      · simp [isTruthy, hs]

/-- The source's per-group search computes exactly the amended
candidate. -/
theorem getTextFromGroup_eq_amendedCandidate (l : Layer) :
    getTextFromGroup l = amendedCandidate l := by
  cases l with
  | art n k v c => rfl
  | set n v ch =>
    rw [getTextFromGroup, amendedCandidate, firstTextContents_eq_specDirect,
      searchNestedSets_eq_amendedNested]

/-- C4 amended.  Rename-groups-from-text renames each top-level container
independently to its amended candidate — the first direct Text child's
contents when a direct Text child exists, otherwise the first non-empty
result of the same search over the nested containers in order (empty
results skipped) — and only when that candidate is non-empty; otherwise
the container is unchanged. -/
theorem rename_matches_amended_claim (ls : List Layer) :
    renameGroups ls = ls.map amendedRename := by
  refine List.map_congr_left fun l _ => ?_
  cases l with
  | art n k v c => rfl
  | set n v ch =>
    show (match getTextFromGroup (.set n v ch) with
      | some s => if s == "" then Layer.set n v ch else Layer.set s v ch
      | none => Layer.set n v ch) = amendedRename (.set n v ch)
    rw [getTextFromGroup_eq_amendedCandidate, amendedRename]

end PosterTools
